import Mathlib

/-!
Shallow embedding of the Aarogya-AI report-parsing pipeline
(`src/data_processing/pipeline.py`, `src/parser.py`, `run_pipeline.py`,
`src/api/main.py`) together with theorems settling the frozen claims.

Python regular expressions used by the source are modelled by direct
character-list scanners with the same leftmost-match, alternation-order
and greedy semantics on the relevant pattern shapes.
-/

namespace AarogyaAI

/-! ## Character and string utilities (Python `str` / `re` behaviour) -/

/-- Python `\s` on the inputs in scope (ASCII whitespace). -/
def isSpaceChar (c : Char) : Bool :=
  c = ' ' || c = '\t' || c = '\n' || c = '\r' || c = '\x0b' || c = '\x0c'

/-- Python `\d`. -/
def isDigitChar (c : Char) : Bool := c.isDigit

/-- Python `\w` (ASCII relevant fragment). -/
def isWordChar (c : Char) : Bool := c.isAlphanum || c = '_'

/-- Case-insensitive prefix test, modelling `re.IGNORECASE` literal matching. -/
def isPrefixCI : List Char → List Char → Bool
  | [], _ => true
  | _ :: _, [] => false
  | a :: as, b :: bs => (a.toLower == b.toLower) && isPrefixCI as bs

/-- Case-insensitive substring test, modelling Python `kw.lower() in line.lower()`. -/
def containsCI (pat : List Char) : List Char → Bool
  | [] => pat.isEmpty
  | c :: rest => isPrefixCI pat (c :: rest) || containsCI pat rest

/-- Word-ness of the character on one side of a position (`none` = string edge). -/
def wordAt : Option Char → Bool
  | none => false
  | some c => isWordChar c

/-- Regex `\b`: the two sides of the position differ in word-ness. -/
def boundaryOk (a b : Option Char) : Bool := wordAt a != wordAt b

/-- One alias of the pattern `\b(a1|a2|...)\b` matches at the current position,
given the character just before the position (`prev`). -/
def aliasMatchAt (al : List Char) (prev : Option Char) (s : List Char) : Bool :=
  isPrefixCI al s && boundaryOk prev s.head?
    && boundaryOk (s.take al.length).getLast? (s.drop al.length).head?

/-- Scan all positions of `s` for a `\b`-anchored case-insensitive occurrence of `al`. -/
def aliasSearchAux (al : List Char) : Option Char → List Char → Bool
  | prev, [] => aliasMatchAt al prev []
  | prev, c :: rest => aliasMatchAt al prev (c :: rest) || aliasSearchAux al (some c) rest

/-- `re.search` truthiness of `\b(alias)\b` with `re.IGNORECASE`. -/
def aliasSearch (al : List Char) (s : List Char) : Bool := aliasSearchAux al none s

/-- Python `text.split('\n')`. -/
def splitOnNl : List Char → List (List Char)
  | [] => [[]]
  | c :: rest =>
    if c = '\n' then [] :: splitOnNl rest
    else
      match splitOnNl rest with
      | [] => [[c]]
      | l :: ls => (c :: l) :: ls

/-- Python `str.strip()`. -/
def trimChars (s : List Char) : List Char :=
  ((s.dropWhile isSpaceChar).reverse.dropWhile isSpaceChar).reverse

/-- Python `" ".join(lines)`. -/
def joinSpace : List (List Char) → List Char
  | [] => []
  | [l] => l
  | l :: ls => l ++ ' ' :: joinSpace ls

/-- Match of `(\d+\.\d+|\d+)` anchored at the current position
(first alternative preferred, greedy digit runs). -/
def numberAt (s : List Char) : Option (List Char) :=
  let ds := s.takeWhile isDigitChar
  if ds.isEmpty then none
  else
    match s.dropWhile isDigitChar with
    | '.' :: r2 =>
      let fs := r2.takeWhile isDigitChar
      if fs.isEmpty then some ds else some (ds ++ '.' :: fs)
    | _ => some ds

/-- `re.search(r'(\d+\.\d+|\d+)', s)`: leftmost match. -/
def findFirstNumber : List Char → Option (List Char)
  | [] => none
  | c :: rest =>
    match numberAt (c :: rest) with
    | some m => some m
    | none => findFirstNumber rest

/-- Match of `(\d+\s*-\s*\d+)` anchored at the current position. -/
def rangeAt (s : List Char) : Option (List Char) :=
  let d1 := s.takeWhile isDigitChar
  if d1.isEmpty then none
  else
    let r1 := s.dropWhile isDigitChar
    let sp1 := r1.takeWhile isSpaceChar
    match r1.dropWhile isSpaceChar with
    | '-' :: r3 =>
      let sp2 := r3.takeWhile isSpaceChar
      let d2 := (r3.dropWhile isSpaceChar).takeWhile isDigitChar
      if d2.isEmpty then none
      else some (d1 ++ sp1 ++ '-' :: (sp2 ++ d2))
    | _ => none

/-- `re.search(r'(\d+\s*-\s*\d+)', s)`: leftmost match. -/
def findFirstRange : List Char → Option (List Char)
  | [] => none
  | c :: rest =>
    match rangeAt (c :: rest) with
    | some m => some m
    | none => findFirstRange rest

/-- The unit alternation `(mg/dl|Ratio|U/L|g/dL|%)` of the source, in source order. -/
def unitVocab : List String := ["mg/dl", "Ratio", "U/L", "g/dL", "%"]

/-- Try the unit alternatives, in order, anchored at the current position;
the returned text is the matched slice of the input (`group(0)`). -/
def unitAtList (s : List Char) : List String → Option (List Char)
  | [] => none
  | u :: us => if isPrefixCI u.data s then some (s.take u.data.length) else unitAtList s us

/-- Unit alternation match at the current position. -/
def unitAt (s : List Char) : Option (List Char) := unitAtList s unitVocab

/-- `re.search(r'(mg/dl|Ratio|U/L|g/dL|%)', s, re.IGNORECASE)`: leftmost match. -/
def findFirstUnit : List Char → Option (List Char)
  | [] => none
  | c :: rest =>
    match unitAt (c :: rest) with
    | some m => some m
    | none => findFirstUnit rest

/-- Character class `[HLÎ—]` under `re.IGNORECASE`. -/
def isFlagChar (c : Char) : Bool :=
  c = 'H' || c = 'h' || c = 'L' || c = 'l' || c = 'Î' || c = 'î' || c = '—'

/-- `"".join(re.findall(r'[HLÎ—]', line, re.IGNORECASE))`. -/
def findFlags (line : List Char) : List Char := line.filter isFlagChar

/-! ## Patient-info patterns (`IntelligentParser.patient_patterns`) -/

/-- Python `\s*` followed by a literal: skipping the greedy whitespace run is
the unique way the literal can still match. -/
def skipSpaces (s : List Char) : List Char := s.dropWhile isSpaceChar

/-- Backtracking of `\s*([^\n]+)` at the current position: the greedy
whitespace run of length `j` is shrunk until `[^\n]+` can match; the group is
the greedy `[^\n]+` run from the split point. -/
def group2From : Nat → List Char → Option (List Char)
  | j, r =>
    match (r.drop j).head? with
    | some c =>
      if c = '\n' then
        match j with
        | 0 => none
        | j' + 1 => group2From j' r
      else some ((r.drop j).takeWhile (· != '\n'))
    | none =>
      match j with
      | 0 => none
      | j' + 1 => group2From j' r

/-- `\s*([^\n]+)` at the current position. -/
def group2At (r : List Char) : Option (List Char) :=
  group2From (r.takeWhile isSpaceChar).length r

/-- `(Mr\.|Mrs\.)\s*([^\n]+)` after `:` and `\s*`: the two honorific
alternatives have incompatible third characters, so trying them in order is
exact. Returns the captured second group. -/
def nameAfterColon (r2 : List Char) : Option (List Char) :=
  let r3 := skipSpaces r2
  if isPrefixCI "Mr.".data r3 then group2At (r3.drop 3)
  else if isPrefixCI "Mrs.".data r3 then group2At (r3.drop 4)
  else none

/-- One label alternative of `(?:Name|Patient Name)\s*:\s*(Mr\.|Mrs\.)\s*([^\n]+)`,
anchored at the current position. -/
def nameAtLabel (lab : List Char) (s : List Char) : Option (List Char) :=
  if isPrefixCI lab s then
    match skipSpaces (s.drop lab.length) with
    | ':' :: r2 => nameAfterColon r2
    | _ => none
  else none

/-- The full name pattern anchored at the current position (label alternatives
in source order; they have incompatible first characters). -/
def nameAt (s : List Char) : Option (List Char) :=
  match nameAtLabel "Name".data s with
  | some g => some g
  | none => nameAtLabel "Patient Name".data s

/-- `Age\s*:\s*(\d+)` anchored at the current position. -/
def ageAt (s : List Char) : Option (List Char) :=
  if isPrefixCI "Age".data s then
    match skipSpaces (s.drop 3) with
    | ':' :: r2 =>
      let ds := (skipSpaces r2).takeWhile isDigitChar
      if ds.isEmpty then none else some ds
    | _ => none
  else none

/-- The sex alternation `(Male|Female|M|F)` in source order, then `\b`;
returns the matched input slice (the captured group). -/
def sexAltList (r3 : List Char) : List String → Option (List Char)
  | [] => none
  | alt :: alts =>
    if isPrefixCI alt.data r3
        && boundaryOk (r3.take alt.data.length).getLast? (r3.drop alt.data.length).head? then
      some (r3.take alt.data.length)
    else sexAltList r3 alts

/-- `Sex\s*:\s*(Male|Female|M|F)\b` anchored at the current position. -/
def sexAt (s : List Char) : Option (List Char) :=
  if isPrefixCI "Sex".data s then
    match skipSpaces (s.drop 3) with
    | ':' :: r2 => sexAltList (skipSpaces r2) ["Male", "Female", "M", "F"]
    | _ => none
  else none

/-- `re.search`: scan positions left to right, return the first anchored match. -/
def searchFirst (f : List Char → Option (List Char)) : List Char → Option (List Char)
  | [] => none
  | c :: rest =>
    match f (c :: rest) with
    | some g => some g
    | none => searchFirst f rest

/-- Result of `IntelligentParser._parse_patient_info`: a key is present in the
Python dict exactly when the pattern matched. -/
structure PatientInfo where
  name : Option String
  age : Option String
  sex : Option String
deriving DecidableEq, Repr

/-- `IntelligentParser._parse_patient_info`: each pattern is searched against
the whole text and the last group of a match is stored, stripped. -/
def parse_patient_info (text : String) : PatientInfo :=
  { name := (searchFirst nameAt text.data).map (fun g => String.mk (trimChars g))
    age := (searchFirst ageAt text.data).map (fun g => String.mk (trimChars g))
    sex := (searchFirst sexAt text.data).map (fun g => String.mk (trimChars g)) }

/-! ## Test-result extraction (`IntelligentParser._parse_test_results`) -/

/-- The alias catalog `master_test_map` of `_compile_test_patterns`,
in source (insertion) order. -/
def master_test_map : List (String × List String) :=
  [("Total Cholesterol", ["Total Cholesterol", "S.Cholesterol", "CHOLESTEROL"]),
   ("HDL Cholesterol", ["HDL Cholesterol", "S. HDL", "HDL-CHOLESTEROL", "HDL"]),
   ("Triglycerides", ["Triglycerides", "S.Triglycerides"])]

/-- `table_start_keywords` of the source. -/
def table_start_keywords : List String :=
  ["BIOCHEMISTRY", "Test Name", "Test Performed", "Investigations", "LIPID PROFILE"]

/-- `table_end_keywords` of the source. -/
def table_end_keywords : List String :=
  ["Interpretation", "Clinical Significance", "** End of Report", "---", "Method:", "Page:"]

/-- `any(keyword.lower() in line.lower() for keyword in kws)`. -/
def keywordHit (kws : List String) (line : List Char) : Bool :=
  kws.any (fun k => containsCI k.data line)

/-- Truthiness of `pattern.search(line)` for a compiled
`\b(alias1|alias2|...)\b` pattern. -/
def patternSearch (aliases : List String) (line : List Char) : Bool :=
  aliases.any (fun a => aliasSearch a.data line)

/-- One emitted row of `_parse_test_results` (the dict appended to `results`). -/
structure RawRow where
  test_name : String
  result : String
  flag : String
  biological_ref_interval : String
  unit : String
deriving DecidableEq, Repr

/-- The inner `for standard_name, pattern in self.test_patterns.items()` loop of
`_parse_test_results`: first matching pattern with a numeric token in the
lookahead window emits one row and breaks. -/
def scanPatterns : List (String × List String) → List Char → List Char → List RawRow
  | [], _, _ => []
  | (name, aliases) :: rest, line, window =>
    if patternSearch aliases line then
      match findFirstNumber window with
      | some res =>
        [{ test_name := name
           result := String.mk res
           flag := String.mk (findFlags line)
           biological_ref_interval := (findFirstRange window).elim "N/A" String.mk
           unit := (findFirstUnit window).elim "N/A" String.mk }]
      | none => scanPatterns rest line window
    else scanPatterns rest line window

/-- The `in_test_section` update performed at the top of each loop iteration:
a start keyword (when outside a section) opens it, then an end keyword closes
it; the updated flag governs the scan of the same line. -/
def sectionStep (inSec : Bool) (line : List Char) : Bool :=
  if (if !inSec && keywordHit table_start_keywords line then true else inSec)
      && keywordHit table_end_keywords line then
    false
  else if !inSec && keywordHit table_start_keywords line then true else inSec

/-- The per-line loop of `_parse_test_results`, threading the `in_test_section`
flag; the lookahead window is the current line joined with the next three. -/
def parseLinesAux : List (List Char) → Bool → List RawRow
  | [], _ => []
  | line :: rest, inSec =>
    (if sectionStep inSec line then
      scanPatterns master_test_map line (joinSpace ((line :: rest).take 4))
     else [])
      ++ parseLinesAux rest (sectionStep inSec line)

/-- `lines = [line.strip() for line in text.split('\n') if line.strip()]`. -/
def linesOf (text : String) : List (List Char) :=
  ((splitOnNl text.data).map trimChars).filter (fun l => !l.isEmpty)

/-- `IntelligentParser._parse_test_results`. -/
def parse_test_results (text : String) : List RawRow :=
  parseLinesAux (linesOf text) false

/-! ## Text extraction (`IntelligentParser._extract_text_from_file`) -/

/-- Outcome of one external page-recognition call (`page.get_text` /
`pytesseract.image_to_string`): recognized text, or a raised exception. -/
inductive PageResult
  | ok (t : String)
  | err
deriving DecidableEq, Repr

/-- The opened file as seen by the extraction code: a PDF container with its
per-page read outcomes, or a raster image with its recognition outcome. -/
inductive FileContent
  | pdf (pages : List PageResult)
  | image (r : PageResult)
deriving DecidableEq, Repr

/-- `s.lower()` (ASCII). -/
def lowerStr (s : String) : String := String.mk (s.data.map Char.toLower)

/-- `a.endswith(b)` (case-sensitive; the callers lower-case first). -/
def strEndsWith (s suf : String) : Bool :=
  List.isPrefixOf suf.data.reverse s.data.reverse

/-- `filename.lower().endswith(('.pdf', '.png', '.jpg', '.jpeg'))`. -/
def supportedExt (filename : String) : Bool :=
  [".pdf", ".png", ".jpg", ".jpeg"].any (fun e => strEndsWith (lowerStr filename) e)

/-- `filename.lower().endswith('.pdf')`. -/
def isPdfName (filename : String) : Bool := strEndsWith (lowerStr filename) ".pdf"

/-- The `for page in doc: text += page.get_text("text")` loop: pages are
concatenated in index order with no separator; a raised page read aborts the
loop and the exception handler discards all accumulated text. -/
def pdfConcat : List PageResult → Option String
  | [] => some ""
  | PageResult.ok t :: rest => (pdfConcat rest).map (fun r => t ++ r)
  | PageResult.err :: _ => none

/-- `IntelligentParser._extract_text_from_file`: unsupported extensions return
`""`; the extension selects the branch; every exception path returns `""`
(the `except` clause), never an error. -/
def extract_text_from_file (filename : String) (content : FileContent) : String :=
  if !supportedExt filename then ""
  else if isPdfName filename then
    match content with
    | FileContent.pdf pages => (pdfConcat pages).getD ""
    | FileContent.image _ => ""
  else
    match content with
    | FileContent.image (PageResult.ok t) => t
    | FileContent.image PageResult.err => ""
    | FileContent.pdf _ => ""

/-! ## Aggregation (`IntelligentParser.process_directory`) -/

/-- One row of the concatenated frame before numeric coercion: a parsed test
row tagged with the per-document patient columns and the source filename
(`df_results['patient_name'] = ...` etc.). -/
structure FlatRow where
  test_name : String
  result : String
  flag : String
  biological_ref_interval : String
  unit : String
  patient_name : String
  age : Option String
  sex : String
  source_file : String
deriving DecidableEq, Repr

/-- The per-document tagging step of `process_directory`: absent name and sex
default to `'Unknown'`, absent age to `None`. -/
def toFlat (info : PatientInfo) (fn : String) (r : RawRow) : FlatRow :=
  { test_name := r.test_name
    result := r.result
    flag := r.flag
    biological_ref_interval := r.biological_ref_interval
    unit := r.unit
    patient_name := info.name.getD "Unknown"
    age := info.age
    sex := info.sex.getD "Unknown"
    source_file := fn }

/-- A parsed numeric value in scaled-decimal form: the pair `(m, e)` denotes
`m * 10 ^ e`. The pipeline never computes with the coerced numbers (it only
stores them), so this faithful representation of the parsed literal stands in
for the float produced by `pd.to_numeric`. -/
abbrev NumVal := ℤ × ℤ

/-- One row of the final frame, after `pd.to_numeric` and `patient_id`. -/
structure DataRow where
  test_name : String
  result : NumVal
  flag : String
  biological_ref_interval : String
  unit : String
  patient_name : String
  age : Option String
  sex : String
  source_file : String
  patient_id : Nat
deriving DecidableEq, Repr

/-- `df.drop_duplicates()` keeping first occurrences: `seen` accumulates the
already-emitted rows. -/
def dedupKeepFirstAux {α : Type} [DecidableEq α] : List α → List α → List α
  | [], _ => []
  | x :: xs, seen =>
    if x ∈ seen then dedupKeepFirstAux xs seen
    else x :: dedupKeepFirstAux xs (x :: seen)

/-- `df.drop_duplicates()` (keep='first', all columns). -/
def dedupKeepFirst {α : Type} [DecidableEq α] (l : List α) : List α :=
  dedupKeepFirstAux l []

/-- Digit run to its value. -/
def digitsNat (l : List Char) : Nat :=
  l.foldl (fun n c => n * 10 + (c.toNat - 48)) 0

/-- Optional exponent suffix `[eE][+-]?\d+` of a float literal; must consume
the whole remainder. -/
def parseExpTail (r : List Char) : Option ℤ :=
  match r with
  | [] => some 0
  | c :: r2 =>
    if c = 'e' || c = 'E' then
      match r2 with
      | '+' :: r3 =>
        if r3.isEmpty || !r3.all isDigitChar then none else some (Int.ofNat (digitsNat r3))
      | '-' :: r3 =>
        if r3.isEmpty || !r3.all isDigitChar then none else some (-(Int.ofNat (digitsNat r3)))
      | r3 =>
        if r3.isEmpty || !r3.all isDigitChar then none else some (Int.ofNat (digitsNat r3))
    else none

/-- Unsigned float literal `\d+(\.\d*)? | \.\d+`, with optional exponent:
the mantissa is the integer and fractional digits read as one integer, the
exponent is the literal exponent minus the number of fractional digits. -/
def parseUnsignedNum (t : List Char) : Option NumVal :=
  let ip := t.takeWhile isDigitChar
  let r1 := t.dropWhile isDigitChar
  match r1 with
  | '.' :: r2 =>
    let fp := r2.takeWhile isDigitChar
    let r3 := r2.dropWhile isDigitChar
    if ip.isEmpty && fp.isEmpty then none
    else
      match parseExpTail r3 with
      | some e => some ((digitsNat (ip ++ fp) : ℤ), e - (fp.length : ℤ))
      | none => none
  | _ =>
    if ip.isEmpty then none
    else
      match parseExpTail r1 with
      | some e => some ((digitsNat ip : ℤ), e)
      | none => none

/-- `pd.to_numeric(value, errors='coerce')` on a string cell: a full numeric
literal parses to its value, anything else coerces to NaN (`none`), which
`dropna` then removes. -/
def toNumeric (s : String) : Option NumVal :=
  match trimChars s.data with
  | '+' :: t => parseUnsignedNum t
  | '-' :: t => (parseUnsignedNum t).map (fun q => (-q.1, q.2))
  | t => parseUnsignedNum t

/-- `to_numeric` + `dropna(subset=['result'])`: rows whose result fails
coercion are dropped, the others keep their coerced value. -/
def coerceRows : List FlatRow → List (FlatRow × NumVal)
  | [] => []
  | r :: rest =>
    match toNumeric r.result with
    | some q => (r, q) :: coerceRows rest
    | none => coerceRows rest

/-- Python `<` on strings: lexicographic comparison of code points. -/
def ltCharList : List Char → List Char → Bool
  | [], [] => false
  | [], _ :: _ => true
  | _ :: _, [] => false
  | a :: as, b :: bs =>
    if a.toNat < b.toNat then true
    else if b.toNat < a.toNat then false
    else ltCharList as bs

/-- Python `<=` on strings (`a <= b` iff `not (b < a)`). -/
def leStr (a b : String) : Bool := !ltCharList b.data a.data

/-- Ordered insertion for the lexicographic string sort used by
`groupby` (pandas sorts group keys). -/
def insertStr (a : String) : List String → List String
  | [] => [a]
  | b :: bs => if leStr a b then a :: b :: bs else b :: insertStr a bs

/-- Lexicographic sort of the source-file column. -/
def sortStrs : List String → List String
  | [] => []
  | a :: as => insertStr a (sortStrs as)

/-- Index of the first occurrence of `s` in `ks`. -/
def rankOf (s : String) : List String → Nat
  | [] => 0
  | k :: ks => if k = s then 0 else rankOf s ks + 1

/-- The sorted distinct group keys of
`master_df.groupby('source_file')` (pandas `sort=True`). -/
def groupKeys (l : List (FlatRow × NumVal)) : List String :=
  dedupKeepFirst (sortStrs (l.map (fun p => p.1.source_file)))

/-- Assembly of one final row: the coerced result replaces the string result
and `patient_id` is the 1-based rank of the row's source file among the
sorted distinct group keys (`groupby('source_file').ngroup() + 1`). -/
def aggRow (keys : List String) (p : FlatRow × NumVal) : DataRow :=
  { test_name := p.1.test_name
    result := p.2
    flag := p.1.flag
    biological_ref_interval := p.1.biological_ref_interval
    unit := p.1.unit
    patient_name := p.1.patient_name
    age := p.1.age
    sex := p.1.sex
    source_file := p.1.source_file
    patient_id := rankOf p.1.source_file keys + 1 }

/-- Lines 133–139 of `process_directory`: concat, `drop_duplicates`,
`to_numeric` + `dropna`, then `patient_id = groupby('source_file').ngroup() + 1`. -/
def aggregate (flat : List FlatRow) : List DataRow :=
  (coerceRows (dedupKeepFirst flat)).map
    (aggRow (groupKeys (coerceRows (dedupKeepFirst flat))))

/-- Ordered insertion by filename for `sorted(os.listdir(directory_path))`. -/
def insertFile (p : String × String) : List (String × String) → List (String × String)
  | [] => [p]
  | q :: qs => if leStr p.1 q.1 then p :: q :: qs else q :: insertFile p qs

/-- `sorted(os.listdir(...))` over (filename, extracted raw text) pairs. -/
def sortFiles : List (String × String) → List (String × String)
  | [] => []
  | p :: ps => insertFile p (sortFiles ps)

/-- The per-file body of the `process_directory` loop: empty raw text is
skipped, an empty parse result contributes nothing, otherwise the parsed rows
are tagged with the parsed patient info and the filename. -/
def fileRows (fn raw : String) : List FlatRow :=
  if raw = "" then []
  else (parse_test_results raw).map (toFlat (parse_patient_info raw) fn)

/-- The full `for filename in sorted(os.listdir(...))` loop: dot-files are
skipped, all other files contribute their rows in sorted filename order. -/
def flattenFiles : List (String × String) → List FlatRow
  | [] => []
  | p :: ps =>
    (if List.isPrefixOf ".".data p.1.data then [] else fileRows p.1 p.2) ++ flattenFiles ps

/-- `IntelligentParser.process_directory`, taking the directory as the list of
(filename, extracted raw text) pairs (file reading and OCR happen outside the
aggregation logic). -/
def process_directory (files : List (String × String)) : List DataRow :=
  aggregate (flattenFiles (sortFiles files))

/-! ## Model-assisted parser (`GeminiParser.parse`) and escalation policy -/

/-- One test-result entry of the structured payload exchanged with the parsers
(`{test_name, result, unit}` dict of `parser.py`). -/
structure GTestResult where
  test_name : String
  result : String
  unit : Option String
deriving DecidableEq, Repr

/-- The structured payload `{patient_details, test_results}`. -/
structure GPayload where
  patient_details : List (String × String)
  test_results : List GTestResult
deriving DecidableEq, Repr

/-- The payload returned by `GeminiParser.parse` on any failure:
`{"patient_details": {}, "test_results": []}`. -/
def emptyPayload : GPayload := { patient_details := [], test_results := [] }

/-- Outcome of the external `model.generate_content` call: a raised exception,
or a response text. -/
inductive GeminiOutcome
  | callError
  | output (s : String)
deriving DecidableEq, Repr

/-- `GeminiParser.parse`: the external call and `json.loads` run inside
`try`; any exception (failed call, or `jsonLoads` rejecting the response,
modelled as `none`) yields the empty payload. The function is total: no
exception reaches the caller. -/
def gemini_parse (jsonLoads : String → Option GPayload) (outcome : GeminiOutcome) : GPayload :=
  match outcome with
  | GeminiOutcome.callError => emptyPayload
  | GeminiOutcome.output s =>
    match jsonLoads s with
    | none => emptyPayload
    | some p => p

/-- The hybrid escalation step of `run_pipeline.main` (lines 74–81) and
`api.main.process_report` (lines 122–124): if the deterministic parser found
fewer than `threshold` test results, the result is replaced by the model
parser's payload. The boolean records whether the model was invoked. -/
def hybrid_parse (det : GPayload) (modelResult : GPayload) (threshold : Nat) :
    GPayload × Bool :=
  if det.test_results.length < threshold then (modelResult, true) else (det, false)

/-! ## Lemmas: deduplication -/

theorem dedupAux_sublist {α : Type} [DecidableEq α] (l seen : List α) :
    List.Sublist (dedupKeepFirstAux l seen) l := by
  induction l generalizing seen with
  | nil => simp [dedupKeepFirstAux]
  | cons x xs ih =>
    unfold dedupKeepFirstAux
    split
    · exact (ih seen).cons x
    · exact (ih (x :: seen)).cons₂ x

theorem mem_dedupAux {α : Type} [DecidableEq α] {a : α} :
    ∀ {l seen : List α}, a ∈ dedupKeepFirstAux l seen ↔ a ∈ l ∧ a ∉ seen := by
  intro l
  induction l with
  | nil => intro seen; simp [dedupKeepFirstAux]
  | cons x xs ih =>
    intro seen
    unfold dedupKeepFirstAux
    split
    · rename_i hx
      rw [ih]
      constructor
      · rintro ⟨h1, h2⟩
        exact ⟨List.mem_cons_of_mem _ h1, h2⟩
      · rintro ⟨h1, h2⟩
        rcases List.mem_cons.mp h1 with h | h
        · exact absurd (h ▸ hx) h2
        · exact ⟨h, h2⟩
    · rename_i hx
      constructor
      · intro hmem
        rcases List.mem_cons.mp hmem with rfl | hmem
        · exact ⟨List.mem_cons_self _ _, hx⟩
        · obtain ⟨h1, h2⟩ := ih.mp hmem
          exact ⟨List.mem_cons_of_mem _ h1, fun hc => h2 (List.mem_cons_of_mem _ hc)⟩
      · rintro ⟨h1, h2⟩
        rcases List.mem_cons.mp h1 with rfl | h1
        · exact List.mem_cons_self _ _
        · by_cases hax : a = x
          · exact hax ▸ List.mem_cons_self _ _
          · refine List.mem_cons_of_mem _ (ih.mpr ⟨h1, fun hc => ?_⟩)
            rcases List.mem_cons.mp hc with h | h
            · exact hax h
            · exact h2 h

theorem mem_dedup {α : Type} [DecidableEq α] {a : α} {l : List α} :
    a ∈ dedupKeepFirst l ↔ a ∈ l := by
  unfold dedupKeepFirst
  rw [mem_dedupAux]
  simp

theorem dedupAux_nodup {α : Type} [DecidableEq α] :
    ∀ (l seen : List α), (dedupKeepFirstAux l seen).Nodup := by
  intro l
  induction l with
  | nil => intro seen; simp [dedupKeepFirstAux]
  | cons x xs ih =>
    intro seen
    unfold dedupKeepFirstAux
    split
    · exact ih seen
    · refine List.nodup_cons.mpr ⟨fun hmem => ?_, ih (x :: seen)⟩
      exact (mem_dedupAux.mp hmem).2 (List.mem_cons_self x seen)

theorem dedupAux_all_seen {α : Type} [DecidableEq α] :
    ∀ {l seen : List α}, (∀ a ∈ l, a ∈ seen) → dedupKeepFirstAux l seen = [] := by
  intro l
  induction l with
  | nil => intro seen _; rfl
  | cons x xs ih =>
    intro seen h
    unfold dedupKeepFirstAux
    rw [if_pos (h x (List.mem_cons_self x xs))]
    exact ih (fun a ha => h a (List.mem_cons_of_mem _ ha))

theorem dedupAux_append_covered {α : Type} [DecidableEq α] {l₂ : List α} :
    ∀ (l₁ : List α) (seen : List α), (∀ a ∈ l₂, a ∈ l₁ ∨ a ∈ seen) →
      dedupKeepFirstAux (l₁ ++ l₂) seen = dedupKeepFirstAux l₁ seen := by
  intro l₁
  induction l₁ with
  | nil =>
    intro seen h
    simp only [List.nil_append]
    exact dedupAux_all_seen (fun a ha => (h a ha).elim (fun hc => absurd hc (by simp)) id)
  | cons x xs ih =>
    intro seen h
    simp only [List.cons_append]
    unfold dedupKeepFirstAux
    split
    · rename_i hx
      refine ih seen (fun a ha => ?_)
      rcases h a ha with hc | hc
      · rcases List.mem_cons.mp hc with rfl | hc
        · exact Or.inr hx
        · exact Or.inl hc
      · exact Or.inr hc
    · rename_i hx
      congr 1
      refine ih (x :: seen) (fun a ha => ?_)
      rcases h a ha with hc | hc
      · rcases List.mem_cons.mp hc with rfl | hc
        · exact Or.inr (List.mem_cons_self a seen)
        · exact Or.inl hc
      · exact Or.inr (List.mem_cons_of_mem _ hc)

theorem dedup_self_append {α : Type} [DecidableEq α] (l : List α) :
    dedupKeepFirst (l ++ l) = dedupKeepFirst l := by
  unfold dedupKeepFirst
  exact dedupAux_append_covered l [] (fun a ha => Or.inl ha)

/-! ## Claim theorems: C3, C8, C2, C6 -/

/-- C3: the model-assisted parser is invoked iff the deterministic count is
strictly below the threshold; when the count meets the threshold the
deterministic result is returned unchanged and the model is never invoked;
with threshold 0 the model is never invoked. -/
theorem c3_escalation_iff (det modelResult : GPayload) (threshold : Nat) :
    ((hybrid_parse det modelResult threshold).2 = true ↔
      det.test_results.length < threshold)
    ∧ (threshold ≤ det.test_results.length →
        hybrid_parse det modelResult threshold = (det, false))
    ∧ hybrid_parse det modelResult 0 = (det, false) := by
  unfold hybrid_parse
  refine ⟨?_, ?_, ?_⟩
  · split <;> simp_all
  · intro h
    rw [if_neg (by omega)]
  · rw [if_neg (by omega)]

/-- Sample deterministic payload with two test results, for the C3 witness. -/
def detSample : GPayload :=
  { patient_details := [("name", "A")]
    test_results := [{ test_name := "Hemoglobin", result := "15.2", unit := some "g/dL" },
                     { test_name := "Glucose", result := "90", unit := none }] }

/-- C3 witness: with 2 deterministic results, threshold 2 keeps the
deterministic payload and does not invoke the model; threshold 5 invokes it. -/
theorem c3_escalation_iff_witness :
    hybrid_parse detSample emptyPayload 2 = (detSample, false)
    ∧ (hybrid_parse detSample emptyPayload 5).2 = true :=
  ⟨(c3_escalation_iff detSample emptyPayload 2).2.1 (by decide),
   (c3_escalation_iff detSample emptyPayload 5).1.mpr (by decide)⟩

/-- C8: on a failed external call, or on a response the JSON decoder rejects,
`GeminiParser.parse` returns the record with empty patient details and an
empty test-results list; being a total function, it raises nothing. -/
theorem c8_gemini_degrades (jsonLoads : String → Option GPayload) (s : String) :
    gemini_parse jsonLoads GeminiOutcome.callError = emptyPayload
    ∧ (jsonLoads s = none →
        gemini_parse jsonLoads (GeminiOutcome.output s) = emptyPayload) := by
  refine ⟨rfl, fun h => ?_⟩
  simp [gemini_parse, h]

/-- C8 witness: a decoder rejecting the concrete response text yields the
empty payload. -/
theorem c8_gemini_degrades_witness :
    gemini_parse (fun _ => none) (GeminiOutcome.output "not json") = emptyPayload :=
  (c8_gemini_degrades (fun _ => none) "not json").2 rfl

/-- C2 counterexample: a three-page PDF whose second page read raises loses
the whole document: the call returns `""`, so page 1's text `"A"` is not
preserved at its position and no page-break markers appear. -/
theorem c2_counterexample :
    extract_text_from_file "report.pdf"
        (FileContent.pdf [PageResult.ok "A", PageResult.err, PageResult.ok "C"]) = ""
    ∧ ("A".isPrefixOf (extract_text_from_file "report.pdf"
        (FileContent.pdf [PageResult.ok "A", PageResult.err, PageResult.ok "C"]))) = false := by
  constructor <;> rfl

/-- Concatenation of the texts of the pages that succeed, with no separator. -/
def concatOkTexts : List PageResult → String
  | [] => ""
  | PageResult.ok t :: rest => t ++ concatOkTexts rest
  | PageResult.err :: rest => concatOkTexts rest

theorem pdfConcat_of_err {pages : List PageResult} (h : PageResult.err ∈ pages) :
    pdfConcat pages = none := by
  induction pages with
  | nil => cases h
  | cons p rest ih =>
    cases p with
    | ok t =>
      have : PageResult.err ∈ rest := by
        rcases List.mem_cons.mp h with hc | hc
        · cases hc
        · exact hc
      unfold pdfConcat
      rw [ih this]
      rfl
    | err => rfl

theorem pdfConcat_of_ok {pages : List PageResult} (h : PageResult.err ∉ pages) :
    pdfConcat pages = some (concatOkTexts pages) := by
  induction pages with
  | nil => rfl
  | cons p rest ih =>
    cases p with
    | ok t =>
      have hrest : PageResult.err ∉ rest := fun hc => h (List.mem_cons_of_mem _ hc)
      unfold pdfConcat concatOkTexts
      rw [ih hrest]
      rfl
    | err => exact absurd (List.mem_cons_self _ _) h

/-- C2 amended: for a multi-page PDF the page texts are joined in strict page
order with NO page-break marker; a single failed page read makes the whole
call return `""` (discarding every page's text), and unsupported media kinds
also yield `""` rather than an extraction error. -/
theorem c2_amended_extraction (pages pagesOk : List PageResult)
    (h1 : PageResult.err ∈ pages) (h2 : PageResult.err ∉ pagesOk) :
    (∀ c : FileContent, extract_text_from_file "notes.txt" c = "")
    ∧ extract_text_from_file "report.pdf" (FileContent.pdf pages) = ""
    ∧ extract_text_from_file "report.pdf" (FileContent.pdf pagesOk)
        = concatOkTexts pagesOk := by
  refine ⟨fun c => rfl, ?_, ?_⟩
  · show (if !supportedExt "report.pdf" then "" else _) = ""
    rw [if_neg (by decide)]
    show (if isPdfName "report.pdf" then (pdfConcat pages).getD "" else _) = ""
    rw [if_pos (by decide), pdfConcat_of_err h1]
    rfl
  · show (if !supportedExt "report.pdf" then "" else _) = _
    rw [if_neg (by decide)]
    show (if isPdfName "report.pdf" then (pdfConcat pagesOk).getD "" else _) = _
    rw [if_pos (by decide), pdfConcat_of_ok h2]
    rfl

/-- C2 amended witness: a failing middle page yields `""`; two good pages
yield their texts concatenated with no marker. -/
theorem c2_amended_extraction_witness :
    extract_text_from_file "report.pdf"
        (FileContent.pdf [PageResult.ok "Name: Mr. A", PageResult.err]) = ""
    ∧ extract_text_from_file "report.pdf"
        (FileContent.pdf [PageResult.ok "pg1", PageResult.ok "pg2"]) = "pg1pg2" := by
  have h := c2_amended_extraction [PageResult.ok "Name: Mr. A", PageResult.err]
    [PageResult.ok "pg1", PageResult.ok "pg2"] (by decide) (by decide)
  exact ⟨h.2.1, by rw [h.2.2]; rfl⟩

/-- C6: deduplication merges only exact duplicates — any two distinct row
values present in the flattened input both survive — and aggregation of the
flattened rows concatenated with themselves equals aggregation done once. -/
theorem c6_dedup_exact (l : List FlatRow) :
    (∀ a b : FlatRow, a ∈ l → b ∈ l → a ≠ b →
      a ∈ dedupKeepFirst l ∧ b ∈ dedupKeepFirst l)
    ∧ aggregate (l ++ l) = aggregate l := by
  constructor
  · intro a b ha hb _
    exact ⟨mem_dedup.mpr ha, mem_dedup.mpr hb⟩
  · unfold aggregate
    rw [dedup_self_append]

/-- C6 witness: two rows differing only in their result value both survive
deduplication, and duplicating the whole input changes nothing. -/
theorem c6_dedup_exact_witness :
    (({ test_name := "Total Cholesterol", result := "180", flag := "", biological_ref_interval := "N/A",
        unit := "mg/dl", patient_name := "Unknown", age := none, sex := "Unknown",
        source_file := "a.pdf" } : FlatRow) ∈ dedupKeepFirst
          [{ test_name := "Total Cholesterol", result := "180", flag := "", biological_ref_interval := "N/A",
             unit := "mg/dl", patient_name := "Unknown", age := none, sex := "Unknown",
             source_file := "a.pdf" },
           { test_name := "Total Cholesterol", result := "181", flag := "", biological_ref_interval := "N/A",
             unit := "mg/dl", patient_name := "Unknown", age := none, sex := "Unknown",
             source_file := "a.pdf" }]
      ∧ ({ test_name := "Total Cholesterol", result := "181", flag := "", biological_ref_interval := "N/A",
           unit := "mg/dl", patient_name := "Unknown", age := none, sex := "Unknown",
           source_file := "a.pdf" } : FlatRow) ∈ dedupKeepFirst
          [{ test_name := "Total Cholesterol", result := "180", flag := "", biological_ref_interval := "N/A",
             unit := "mg/dl", patient_name := "Unknown", age := none, sex := "Unknown",
             source_file := "a.pdf" },
           { test_name := "Total Cholesterol", result := "181", flag := "", biological_ref_interval := "N/A",
             unit := "mg/dl", patient_name := "Unknown", age := none, sex := "Unknown",
             source_file := "a.pdf" }])
    ∧ aggregate
        ([{ test_name := "Total Cholesterol", result := "180", flag := "", biological_ref_interval := "N/A",
            unit := "mg/dl", patient_name := "Unknown", age := none, sex := "Unknown",
            source_file := "a.pdf" },
          { test_name := "Total Cholesterol", result := "181", flag := "", biological_ref_interval := "N/A",
            unit := "mg/dl", patient_name := "Unknown", age := none, sex := "Unknown",
            source_file := "a.pdf" }]
          ++ [{ test_name := "Total Cholesterol", result := "180", flag := "", biological_ref_interval := "N/A",
                unit := "mg/dl", patient_name := "Unknown", age := none, sex := "Unknown",
                source_file := "a.pdf" },
              { test_name := "Total Cholesterol", result := "181", flag := "", biological_ref_interval := "N/A",
                unit := "mg/dl", patient_name := "Unknown", age := none, sex := "Unknown",
                source_file := "a.pdf" }])
      = aggregate
          [{ test_name := "Total Cholesterol", result := "180", flag := "", biological_ref_interval := "N/A",
             unit := "mg/dl", patient_name := "Unknown", age := none, sex := "Unknown",
             source_file := "a.pdf" },
           { test_name := "Total Cholesterol", result := "181", flag := "", biological_ref_interval := "N/A",
             unit := "mg/dl", patient_name := "Unknown", age := none, sex := "Unknown",
             source_file := "a.pdf" }] := by
  refine ⟨(c6_dedup_exact _).1 _ _ ?_ ?_ ?_, (c6_dedup_exact _).2⟩
  · exact List.mem_cons_self _ _
  · exact List.mem_cons_of_mem _ (List.mem_cons_self _ _)
  · decide

/-! ## Lemmas: structure of emitted test-result rows -/

theorem mem_scanPatterns {ps : List (String × List String)} {line window : List Char}
    {row : RawRow} (h : row ∈ scanPatterns ps line window) :
    row.test_name ∈ ps.map (fun p => p.1)
    ∧ (∃ res, findFirstNumber window = some res ∧ row.result = String.mk res)
    ∧ row.flag = String.mk (findFlags line)
    ∧ row.biological_ref_interval = (findFirstRange window).elim "N/A" String.mk
    ∧ row.unit = (findFirstUnit window).elim "N/A" String.mk := by
  induction ps with
  | nil => cases h
  | cons p rest ih =>
    rw [show scanPatterns (p :: rest) line window
          = if patternSearch p.2 line then
              match findFirstNumber window with
              | some res =>
                [{ test_name := p.1
                   result := String.mk res
                   flag := String.mk (findFlags line)
                   biological_ref_interval := (findFirstRange window).elim "N/A" String.mk
                   unit := (findFirstUnit window).elim "N/A" String.mk }]
              | none => scanPatterns rest line window
            else scanPatterns rest line window from rfl] at h
    by_cases hs : patternSearch p.2 line
    · rw [if_pos hs] at h
      rcases Option.eq_none_or_eq_some (findFirstNumber window) with hnum | ⟨res, hnum⟩
      · rw [hnum] at h
        obtain ⟨_, ⟨res, heq, _⟩, _⟩ := ih h
        rw [hnum] at heq
        cases heq
      · rw [hnum] at h
        rcases List.mem_cons.mp h with rfl | h
        · exact ⟨List.mem_cons_self _ _, ⟨res, hnum, rfl⟩, rfl, rfl, rfl⟩
        · cases h
    · rw [if_neg hs] at h
      obtain ⟨h1, h2⟩ := ih h
      exact ⟨List.mem_cons_of_mem _ h1, h2⟩

theorem mem_parseLinesAux {row : RawRow} :
    ∀ {lines : List (List Char)} {b : Bool}, row ∈ parseLinesAux lines b →
      ∃ i, i < lines.length
        ∧ row ∈ scanPatterns master_test_map (lines.getD i [])
            (joinSpace ((lines.drop i).take 4)) := by
  intro lines
  induction lines with
  | nil => intro b h; cases h
  | cons line rest ih =>
    intro b h
    unfold parseLinesAux at h
    rcases List.mem_append.mp h with h | h
    · refine ⟨0, Nat.succ_pos _, ?_⟩
      by_cases hc : sectionStep b line = true
      · rw [if_pos hc] at h
        exact h
      · rw [if_neg hc] at h
        cases h
    · obtain ⟨i, hi, hmem⟩ := ih h
      exact ⟨i + 1, Nat.succ_lt_succ hi, hmem⟩

/-! ## Claim C1: alias matching -/

/-- C1 counterexample: the line `HDL Cholesterol 45` carries the alias
`HDL Cholesterol`, which the catalog assigns to canonical name
`HDL Cholesterol`, yet the parser emits the row under `Total Cholesterol`
(whose alias `CHOLESTEROL` also matches the line and is tried first). -/
theorem c1_counterexample :
    (parse_test_results "BIOCHEMISTRY\nHDL Cholesterol 45").map (fun r => r.test_name)
      = ["Total Cholesterol"]
    ∧ ("HDL Cholesterol", ["HDL Cholesterol", "S. HDL", "HDL-CHOLESTEROL", "HDL"])
        ∈ master_test_map := by
  constructor
  · decide
  · decide

/-- C1 amended: in the alias catalog itself no alias spelling is listed under
two distinct canonical names, and every emitted `test_name` is drawn from the
closed canonical vocabulary; however (per the counterexample) a line may be
emitted under a canonical name different from the one its own alias belongs
to, because patterns are tried in catalog order against the whole line. -/
theorem c1_amended_vocabulary (text : String) (row : RawRow)
    (h : row ∈ parse_test_results text) :
    row.test_name ∈ master_test_map.map (fun p => p.1)
    ∧ (∀ p₁ ∈ master_test_map, ∀ p₂ ∈ master_test_map, ∀ a : String,
        a ∈ p₁.2 → a ∈ p₂.2 → p₁ = p₂) := by
  constructor
  · obtain ⟨i, _, hmem⟩ := mem_parseLinesAux h
    exact (mem_scanPatterns hmem).1
  · decide

/-- C1 amended witness: a concrete emitted row's canonical name is in the
catalog vocabulary. -/
theorem c1_amended_vocabulary_witness :
    ({ test_name := "Triglycerides", result := "99", flag := "l",
       biological_ref_interval := "N/A", unit := "N/A" } : RawRow).test_name
        ∈ master_test_map.map (fun p => p.1)
    ∧ (∀ p₁ ∈ master_test_map, ∀ p₂ ∈ master_test_map, ∀ a : String,
        a ∈ p₁.2 → a ∈ p₂.2 → p₁ = p₂) :=
  c1_amended_vocabulary "BIOCHEMISTRY\nTriglycerides 99" _ (by decide)

/-! ## Claim C7: lookahead window -/

/-- C7 counterexample: for the section line `Triglycerides 100` followed by a
line `H`, the lookahead window contains the abnormality character `H`, yet
the emitted flag is `"l"` — the flag characters are collected from the
matching line only, not from the window. -/
theorem c7_counterexample :
    (parse_test_results "BIOCHEMISTRY\nTriglycerides 100\nH").map (fun r => r.flag) = ["l"]
    ∧ 'H' ∈ (joinSpace (((linesOf "BIOCHEMISTRY\nTriglycerides 100\nH").drop 1).take 4))
    ∧ 'H' ∉ ("l" : String).data := by
  refine ⟨by decide, by decide, by decide⟩

/-- C7 amended: every emitted row arises from a matching line at index `i`
and the lookahead window of that line joined with the following three lines;
`result` is the first numeric token of the window, `reference_range` the
first low-high range of the window, `unit` the first unit-vocabulary token of
the window, but the flag characters come from the matching line alone. -/
theorem c7_amended_window (text : String) (row : RawRow)
    (h : row ∈ parse_test_results text) :
    ∃ i, i < (linesOf text).length
      ∧ findFirstNumber (joinSpace (((linesOf text).drop i).take 4)) = some row.result.data
      ∧ row.flag = String.mk (findFlags ((linesOf text).getD i []))
      ∧ row.biological_ref_interval
          = (findFirstRange (joinSpace (((linesOf text).drop i).take 4))).elim "N/A" String.mk
      ∧ row.unit
          = (findFirstUnit (joinSpace (((linesOf text).drop i).take 4))).elim "N/A" String.mk := by
  obtain ⟨i, hi, hmem⟩ := mem_parseLinesAux h
  obtain ⟨_, ⟨res, hres, hrow⟩, hflag, href, hunit⟩ := mem_scanPatterns hmem
  refine ⟨i, hi, ?_, hflag, href, hunit⟩
  rw [hrow]
  exact hres

/-- C7 amended witness: the concrete row emitted for
`BIOCHEMISTRY\nTriglycerides 100\nH` satisfies the window/line field
characterization. -/
theorem c7_amended_window_witness :
    ∃ i, i < (linesOf "BIOCHEMISTRY\nTriglycerides 100\nH").length
      ∧ findFirstNumber (joinSpace (((linesOf "BIOCHEMISTRY\nTriglycerides 100\nH").drop i).take 4))
          = some ("100" : String).data
      ∧ ("l" : String) = String.mk (findFlags ((linesOf "BIOCHEMISTRY\nTriglycerides 100\nH").getD i []))
      ∧ ("N/A" : String)
          = (findFirstRange (joinSpace (((linesOf "BIOCHEMISTRY\nTriglycerides 100\nH").drop i).take 4))).elim
              "N/A" String.mk
      ∧ ("N/A" : String)
          = (findFirstUnit (joinSpace (((linesOf "BIOCHEMISTRY\nTriglycerides 100\nH").drop i).take 4))).elim
              "N/A" String.mk :=
  c7_amended_window "BIOCHEMISTRY\nTriglycerides 100\nH"
    { test_name := "Triglycerides", result := "100", flag := "l",
      biological_ref_interval := "N/A", unit := "N/A" } (by decide)

/-! ## Claim C10: honorific-gated name extraction -/

/-- Specification-side characterization of the name pattern, from the claim's
words: at some position the text carries a name label, a colon, and then an
honorific `Mr.` or `Mrs.` (case-insensitively, with the same optional
whitespace as the source pattern). -/
def labelHonorific (lab : List Char) (s : List Char) : Bool :=
  isPrefixCI lab s &&
    (match skipSpaces (s.drop lab.length) with
     | ':' :: r2 =>
       isPrefixCI "Mr.".data (skipSpaces r2) || isPrefixCI "Mrs.".data (skipSpaces r2)
     | _ => false)

/-- Either label alternative carries a labelled honorific at this position. -/
def labeledHonorificHereB (s : List Char) : Bool :=
  labelHonorific "Name".data s || labelHonorific "Patient Name".data s

/-- Some position of the list satisfies the predicate. -/
def anyPosB (f : List Char → Bool) : List Char → Bool
  | [] => false
  | c :: rest => f (c :: rest) || anyPosB f rest

/-- Specification-side characterization for C10: the text contains a name
label followed (after a colon) by an honorific `Mr.` or `Mrs.`. -/
def hasLabeledHonorific (t : String) : Bool := anyPosB labeledHonorificHereB t.data

theorem nameAfterColon_honorific {r2 g : List Char} (h : nameAfterColon r2 = some g) :
    (isPrefixCI "Mr.".data (skipSpaces r2) || isPrefixCI "Mrs.".data (skipSpaces r2)) = true := by
  unfold nameAfterColon at h
  by_cases h1 : isPrefixCI "Mr.".data (skipSpaces r2) = true
  · rw [h1]
    rfl
  · rw [if_neg h1] at h
    by_cases h2 : isPrefixCI "Mrs.".data (skipSpaces r2) = true
    · rw [h2]
      simp
    · rw [if_neg h2] at h
      cases h

theorem nameAtLabel_honorific {lab s g : List Char} (h : nameAtLabel lab s = some g) :
    labelHonorific lab s = true := by
  unfold nameAtLabel at h
  by_cases hp : isPrefixCI lab s = true
  · rw [if_pos hp] at h
    unfold labelHonorific
    rw [hp, Bool.true_and]
    split at h
    · exact nameAfterColon_honorific h
    · cases h
  · rw [if_neg hp] at h
    cases h

theorem nameAt_here {s g : List Char} (h : nameAt s = some g) :
    labeledHonorificHereB s = true := by
  unfold nameAt at h
  unfold labeledHonorificHereB
  rcases Option.eq_none_or_eq_some (nameAtLabel "Name".data s) with h1 | ⟨g1, h1⟩
  · rw [h1] at h
    rw [nameAtLabel_honorific h]
    simp
  · rw [h1] at h
    cases h
    rw [nameAtLabel_honorific h1]
    rfl

theorem searchFirst_any {f : List Char → Option (List Char)} {fb : List Char → Bool}
    (hf : ∀ s g, f s = some g → fb s = true) :
    ∀ {l : List Char} {g : List Char}, searchFirst f l = some g → anyPosB fb l = true := by
  intro l
  induction l with
  | nil => intro g h; cases h
  | cons c rest ih =>
    intro g h
    unfold searchFirst at h
    unfold anyPosB
    rcases Option.eq_none_or_eq_some (f (c :: rest)) with h1 | ⟨g1, h1⟩
    · rw [h1] at h
      rw [ih h]
      simp
    · rw [hf _ _ h1]
      rfl

/-- C10: the deterministic parser stores a patient name only when a name
label is followed by the honorific `Mr.` or `Mrs.`; a labelled name without
the honorific yields no name, and an extracted name has the honorific
stripped from the stored value. -/
theorem c10_honorific_gate (t : String) :
    ((parse_patient_info t).name.isSome = true → hasLabeledHonorific t = true)
    ∧ (parse_patient_info "Name: John Doe").name = none
    ∧ (parse_patient_info "Name: Mr. John Doe").name = some "John Doe"
    ∧ (parse_patient_info "Name: Mrs. Jane Roe").name = some "Jane Roe" := by
  refine ⟨?_, by decide, by decide, by decide⟩
  intro hsome
  unfold parse_patient_info at hsome
  rcases Option.eq_none_or_eq_some (searchFirst nameAt t.data) with h1 | ⟨g, h1⟩
  · rw [h1] at hsome
    simp at hsome
  · exact searchFirst_any (fun s g h => nameAt_here h) h1

/-- C10 witness: a text with a labelled honorific makes the
specification-side checker true via the theorem. -/
theorem c10_honorific_gate_witness :
    hasLabeledHonorific "Name: Mr. John Doe" = true :=
  (c10_honorific_gate "Name: Mr. John Doe").1 (by decide)

/-! ## Lemmas: the lexicographic string order -/

theorem ltCharList_irrefl : ∀ x : List Char, ltCharList x x = false := by
  intro x
  induction x with
  | nil => rfl
  | cons a as ih =>
    unfold ltCharList
    rw [if_neg (Nat.lt_irrefl _), if_neg (Nat.lt_irrefl _)]
    exact ih

theorem ltCharList_asymm : ∀ {x y : List Char},
    ltCharList x y = true → ltCharList y x = false := by
  intro x
  induction x with
  | nil =>
    intro y h
    cases y with
    | nil => cases h
    | cons b bs => rfl
  | cons a as ih =>
    intro y h
    cases y with
    | nil => cases h
    | cons b bs =>
      unfold ltCharList at h ⊢
      by_cases h1 : a.toNat < b.toNat
      · rw [if_neg (by omega), if_pos h1]
      · rw [if_neg h1] at h
        by_cases h2 : b.toNat < a.toNat
        · rw [if_pos h2] at h
          cases h
        · rw [if_neg h2] at h
          rw [if_neg h2, if_neg h1]
          exact ih h

theorem ltCharList_cotrans : ∀ (y : List Char) {x z : List Char},
    ltCharList x z = true → ltCharList x y = true ∨ ltCharList y z = true := by
  intro y
  induction y with
  | nil =>
    intro x z h
    cases x with
    | nil => exact Or.inr h
    | cons a as =>
      cases z with
      | nil => cases h
      | cons c cs => exact Or.inr rfl
  | cons b bs ih =>
    intro x z h
    cases x with
    | nil => exact Or.inl rfl
    | cons a as =>
      cases z with
      | nil => cases h
      | cons c cs =>
        unfold ltCharList at h ⊢
        by_cases hab : a.toNat < b.toNat
        · left
          rw [if_pos hab]
        · by_cases hbc : b.toNat < c.toNat
          · right
            rw [if_pos hbc]
          · rw [if_neg (by omega)] at h
            by_cases hca : c.toNat < a.toNat
            · rw [if_pos (by omega)] at h
              cases h
            · rw [if_neg (by omega)] at h
              rcases ih h with h' | h'
              · left
                rw [if_neg hab, if_neg (by omega)]
                exact h'
              · right
                rw [if_neg hbc, if_neg (by omega)]
                exact h'

theorem leStr_refl (a : String) : leStr a a = true := by
  unfold leStr
  rw [ltCharList_irrefl]
  rfl

theorem leStr_total {a b : String} (h : leStr a b = false) : leStr b a = true := by
  unfold leStr at h ⊢
  have hlt : ltCharList b.data a.data = true := by
    cases hx : ltCharList b.data a.data
    · rw [hx] at h
      cases h
    · rfl
  rw [ltCharList_asymm hlt]
  rfl

theorem leStr_trans {a b c : String} (h1 : leStr a b = true) (h2 : leStr b c = true) :
    leStr a c = true := by
  unfold leStr at h1 h2 ⊢
  cases hca : ltCharList c.data a.data
  · rfl
  · rcases ltCharList_cotrans b.data hca with h' | h'
    · rw [h'] at h2
      cases h2
    · rw [h'] at h1
      cases h1

/-! ## Lemmas: sorting and ranking -/

theorem mem_insertStr {x a : String} : ∀ {l : List String},
    x ∈ insertStr a l ↔ x = a ∨ x ∈ l := by
  intro l
  induction l with
  | nil => simp [insertStr]
  | cons b bs ih =>
    unfold insertStr
    split
    · simp [List.mem_cons]
    · rw [List.mem_cons, ih, List.mem_cons]
      tauto

theorem insertStr_pairwise {a : String} :
    ∀ {l : List String}, l.Pairwise (fun x y => leStr x y = true) →
      (insertStr a l).Pairwise (fun x y => leStr x y = true) := by
  intro l
  induction l with
  | nil => intro _; simp [insertStr]
  | cons b bs ih =>
    intro hp
    unfold insertStr
    split
    · rename_i hab
      refine List.Pairwise.cons (fun y hy => ?_) hp
      rcases List.mem_cons.mp hy with rfl | hy
      · exact hab
      · exact leStr_trans hab (List.rel_of_pairwise_cons hp hy)
    · rename_i hab
      have hab' : leStr a b = false := by
        revert hab
        cases leStr a b <;> simp
      refine List.Pairwise.cons (fun y hy => ?_) (ih (List.Pairwise.of_cons hp))
      rcases mem_insertStr.mp hy with rfl | hy
      · exact leStr_total hab'
      · exact List.rel_of_pairwise_cons hp hy

theorem sortStrs_pairwise : ∀ l : List String,
    (sortStrs l).Pairwise (fun x y => leStr x y = true) := by
  intro l
  induction l with
  | nil => exact List.Pairwise.nil
  | cons a as ih => exact insertStr_pairwise ih

theorem mem_sortStrs {x : String} : ∀ {l : List String}, x ∈ sortStrs l ↔ x ∈ l := by
  intro l
  induction l with
  | nil => simp [sortStrs]
  | cons a as ih =>
    unfold sortStrs
    rw [mem_insertStr, ih, List.mem_cons]

theorem insertStr_eq_cons {a : String} {l : List String}
    (h : ∀ x ∈ l, leStr a x = true) : insertStr a l = a :: l := by
  cases l with
  | nil => rfl
  | cons b bs =>
    unfold insertStr
    rw [if_pos (h b (List.mem_cons_self _ _))]

theorem sortStrs_eq_self : ∀ {l : List String},
    l.Pairwise (fun x y => leStr x y = true) → sortStrs l = l := by
  intro l
  induction l with
  | nil => intro _; rfl
  | cons a as ih =>
    intro hp
    unfold sortStrs
    rw [ih (List.Pairwise.of_cons hp)]
    exact insertStr_eq_cons (fun x hx => List.rel_of_pairwise_cons hp hx)

theorem mem_insertFile {x p : String × String} :
    ∀ {l : List (String × String)}, x ∈ insertFile p l → x = p ∨ x ∈ l := by
  intro l
  induction l with
  | nil =>
    intro hx
    rcases List.mem_cons.mp hx with rfl | hx
    · exact Or.inl rfl
    · cases hx
  | cons b bs ih =>
    intro hx
    unfold insertFile at hx
    split at hx
    · rcases List.mem_cons.mp hx with rfl | hx
      · exact Or.inl rfl
      · exact Or.inr hx
    · rcases List.mem_cons.mp hx with rfl | hx
      · exact Or.inr (List.mem_cons_self _ _)
      · rcases ih hx with rfl | hx
        · exact Or.inl rfl
        · exact Or.inr (List.mem_cons_of_mem _ hx)

theorem insertFile_pairwise {p : String × String} :
    ∀ {l : List (String × String)}, l.Pairwise (fun x y => leStr x.1 y.1 = true) →
      (insertFile p l).Pairwise (fun x y => leStr x.1 y.1 = true) := by
  intro l
  induction l with
  | nil => intro _; simp [insertFile]
  | cons q qs ih =>
    intro hp
    unfold insertFile
    split
    · rename_i hpq
      refine List.Pairwise.cons (fun y hy => ?_) hp
      rcases List.mem_cons.mp hy with rfl | hy
      · exact hpq
      · exact leStr_trans hpq (List.rel_of_pairwise_cons hp hy)
    · rename_i hpq
      have hpq' : leStr p.1 q.1 = false := by
        revert hpq
        cases leStr p.1 q.1 <;> simp
      refine List.Pairwise.cons (fun y hy => ?_) (ih (List.Pairwise.of_cons hp))
      rcases mem_insertFile hy with rfl | hy
      · exact leStr_total hpq'
      · exact List.rel_of_pairwise_cons hp hy

theorem sortFiles_pairwise : ∀ l : List (String × String),
    (sortFiles l).Pairwise (fun x y => leStr x.1 y.1 = true) := by
  intro l
  induction l with
  | nil => exact List.Pairwise.nil
  | cons p ps ih => exact insertFile_pairwise ih

theorem rankOf_lt_length {s : String} : ∀ {ks : List String},
    s ∈ ks → rankOf s ks < ks.length := by
  intro ks
  induction ks with
  | nil => intro h; cases h
  | cons k kt ih =>
    intro h
    unfold rankOf
    split
    · exact Nat.succ_pos _
    · rename_i hne
      have hs : s ∈ kt := by
        rcases List.mem_cons.mp h with rfl | hmem
        · exact absurd rfl hne
        · exact hmem
      exact Nat.succ_lt_succ (ih hs)

theorem getD_mem : ∀ {ks : List String} {i : Nat}, i < ks.length → ks.getD i "" ∈ ks := by
  intro ks
  induction ks with
  | nil => intro i h; exact absurd h (Nat.not_lt_zero i)
  | cons k kt ih =>
    intro i h
    cases i with
    | zero => exact List.mem_cons_self _ _
    | succ j => exact List.mem_cons_of_mem _ (ih (Nat.lt_of_succ_lt_succ h))

theorem rankOf_getD : ∀ {ks : List String}, ks.Nodup → ∀ {i : Nat}, i < ks.length →
    rankOf (ks.getD i "") ks = i := by
  intro ks
  induction ks with
  | nil => intro _ i h; exact absurd h (Nat.not_lt_zero i)
  | cons k kt ih =>
    intro hnd i h
    cases i with
    | zero =>
      unfold rankOf
      rw [List.getD_cons_zero, if_pos rfl]
    | succ j =>
      have hk : k ∉ kt := (List.nodup_cons.mp hnd).1
      have hj : j < kt.length := Nat.lt_of_succ_lt_succ h
      have hne : ¬(k = kt.getD j "") := fun he => hk (by rw [he]; exact getD_mem hj)
      unfold rankOf
      rw [List.getD_cons_succ, if_neg hne, ih (List.nodup_cons.mp hnd).2 hj]

/-! ## Lemmas: membership tracing through aggregation -/

theorem mem_coerceRows :
    ∀ {l : List FlatRow} {p : FlatRow × NumVal}, p ∈ coerceRows l →
      p.1 ∈ l ∧ toNumeric p.1.result = some p.2 := by
  intro l
  induction l with
  | nil => intro p h; cases h
  | cons r rest ih =>
    intro p h
    unfold coerceRows at h
    split at h
    · rename_i q hq
      rcases List.mem_cons.mp h with rfl | h
      · exact ⟨List.mem_cons_self _ _, hq⟩
      · obtain ⟨h1, h2⟩ := ih h
        exact ⟨List.mem_cons_of_mem _ h1, h2⟩
    · obtain ⟨h1, h2⟩ := ih h
      exact ⟨List.mem_cons_of_mem _ h1, h2⟩

theorem coerceRows_length (l : List FlatRow) :
    (coerceRows l).length = (l.filter (fun r => (toNumeric r.result).isSome)).length := by
  induction l with
  | nil => rfl
  | cons r rest ih =>
    unfold coerceRows
    rw [List.filter_cons]
    split
    · rename_i q hq
      rw [if_pos (by rw [hq]; rfl)]
      simp [ih]
    · rename_i hq
      rw [if_neg (by rw [hq]; simp)]
      exact ih

theorem coerceRows_fst_sublist (l : List FlatRow) :
    List.Sublist ((coerceRows l).map Prod.fst) l := by
  induction l with
  | nil => simp [coerceRows]
  | cons r rest ih =>
    unfold coerceRows
    split
    · exact ih.cons₂ r
    · exact ih.cons r

theorem mem_sortFiles {p : String × String} :
    ∀ {l : List (String × String)}, p ∈ sortFiles l → p ∈ l := by
  intro l
  induction l with
  | nil => intro h; cases h
  | cons q qs ih =>
    intro h
    unfold sortFiles at h
    have hmem : ∀ {x : String × String} {init : List (String × String)},
        x ∈ insertFile q init → x = q ∨ x ∈ init := by
      intro x init
      induction init with
      | nil =>
        intro hx
        rcases List.mem_cons.mp hx with rfl | hx
        · exact Or.inl rfl
        · cases hx
      | cons b bs ihb =>
        intro hx
        unfold insertFile at hx
        split at hx
        · rcases List.mem_cons.mp hx with rfl | hx
          · exact Or.inl rfl
          · exact Or.inr hx
        · rcases List.mem_cons.mp hx with rfl | hx
          · exact Or.inr (List.mem_cons_self _ _)
          · rcases ihb hx with rfl | hx
            · exact Or.inl rfl
            · exact Or.inr (List.mem_cons_of_mem _ hx)
    rcases hmem h with rfl | h
    · exact List.mem_cons_self _ _
    · exact List.mem_cons_of_mem _ (ih h)

theorem mem_flattenFiles {r : FlatRow} :
    ∀ {fs : List (String × String)}, r ∈ flattenFiles fs →
      ∃ p, p ∈ fs ∧ r ∈ fileRows p.1 p.2 := by
  intro fs
  induction fs with
  | nil => intro h; cases h
  | cons p ps ih =>
    intro h
    unfold flattenFiles at h
    rcases List.mem_append.mp h with h | h
    · split at h
      · cases h
      · exact ⟨p, List.mem_cons_self _ _, h⟩
    · obtain ⟨q, hq, hr⟩ := ih h
      exact ⟨q, List.mem_cons_of_mem _ hq, hr⟩

theorem fileRows_fields {fn raw : String} {r : FlatRow} (h : r ∈ fileRows fn raw) :
    r.source_file = fn
    ∧ r.patient_name = ((parse_patient_info raw).name).getD "Unknown"
    ∧ r.age = (parse_patient_info raw).age
    ∧ r.sex = ((parse_patient_info raw).sex).getD "Unknown" := by
  unfold fileRows at h
  split at h
  · cases h
  · obtain ⟨rr, _, rfl⟩ := List.mem_map.mp h
    exact ⟨rfl, rfl, rfl, rfl⟩

theorem mem_aggregate {flat : List FlatRow} {d : DataRow} (h : d ∈ aggregate flat) :
    ∃ r, r ∈ flat ∧ toNumeric r.result = some d.result
      ∧ d.patient_name = r.patient_name ∧ d.age = r.age ∧ d.sex = r.sex
      ∧ d.source_file = r.source_file ∧ d.test_name = r.test_name := by
  unfold aggregate at h
  obtain ⟨p, hp, rfl⟩ := List.mem_map.mp h
  obtain ⟨h1, h2⟩ := mem_coerceRows hp
  exact ⟨p.1, mem_dedup.mp h1, h2, rfl, rfl, rfl, rfl, rfl⟩

/-! ## Lemmas: sortedness of the source-file column -/

theorem pairwise_all_eq {s : String} : ∀ {l : List String}, (∀ x ∈ l, x = s) →
    l.Pairwise (fun x y => leStr x y = true) := by
  intro l
  induction l with
  | nil => intro _; exact List.Pairwise.nil
  | cons a as ih =>
    intro h
    refine List.Pairwise.cons (fun y hy => ?_) (ih fun x hx => h x (List.mem_cons_of_mem _ hx))
    rw [h a (List.mem_cons_self _ _), h y (List.mem_cons_of_mem _ hy)]
    exact leStr_refl s

theorem mem_flatten_src {fs : List (String × String)} {x : String}
    (h : x ∈ (flattenFiles fs).map (fun r => r.source_file)) :
    ∃ q ∈ fs, x = q.1 := by
  obtain ⟨r, hr, rfl⟩ := List.mem_map.mp h
  obtain ⟨q, hq, hrq⟩ := mem_flattenFiles hr
  exact ⟨q, hq, (fileRows_fields hrq).1⟩

theorem flattenFiles_sources_pairwise :
    ∀ {fs : List (String × String)}, fs.Pairwise (fun a b => leStr a.1 b.1 = true) →
      ((flattenFiles fs).map (fun r => r.source_file)).Pairwise
        (fun x y => leStr x y = true) := by
  intro fs
  induction fs with
  | nil => intro _; exact List.Pairwise.nil
  | cons p ps ih =>
    intro hp
    unfold flattenFiles
    rw [List.map_append, List.pairwise_append]
    refine ⟨?_, ih (List.Pairwise.of_cons hp), ?_⟩
    · refine pairwise_all_eq (s := p.1) (fun x hx => ?_)
      obtain ⟨r, hr, rfl⟩ := List.mem_map.mp hx
      split at hr
      · cases hr
      · exact (fileRows_fields hr).1
    · intro x hx y hy
      obtain ⟨r, hr, rfl⟩ := List.mem_map.mp hx
      have hx1 : r.source_file = p.1 := by
        split at hr
        · cases hr
        · exact (fileRows_fields hr).1
      obtain ⟨q, hq, rfl⟩ := mem_flatten_src hy
      rw [hx1]
      exact List.rel_of_pairwise_cons hp hq

theorem aggregate_map_src (flat : List FlatRow) :
    (aggregate flat).map (fun d => d.source_file)
      = (coerceRows (dedupKeepFirst flat)).map (fun p => p.1.source_file) := by
  unfold aggregate
  rw [List.map_map]
  rfl

theorem aggregate_srcs_pairwise {flat : List FlatRow}
    (h : (flat.map (fun r => r.source_file)).Pairwise (fun x y => leStr x y = true)) :
    ((coerceRows (dedupKeepFirst flat)).map (fun p => p.1.source_file)).Pairwise
      (fun x y => leStr x y = true) := by
  have h1 : List.Sublist ((dedupKeepFirst flat).map (fun r => r.source_file))
      (flat.map (fun r => r.source_file)) := (dedupAux_sublist flat []).map _
  have h2 : List.Sublist
      (((coerceRows (dedupKeepFirst flat)).map Prod.fst).map (fun r => r.source_file))
      ((dedupKeepFirst flat).map (fun r => r.source_file)) :=
    (coerceRows_fst_sublist _).map _
  have h3 := List.Pairwise.sublist h2 (List.Pairwise.sublist h1 h)
  rw [List.map_map] at h3
  exact h3

theorem groupKeys_of_sorted {flat : List FlatRow}
    (h : ((coerceRows (dedupKeepFirst flat)).map (fun p => p.1.source_file)).Pairwise
      (fun x y => leStr x y = true)) :
    groupKeys (coerceRows (dedupKeepFirst flat))
      = dedupKeepFirst ((coerceRows (dedupKeepFirst flat)).map (fun p => p.1.source_file)) := by
  unfold groupKeys
  rw [sortStrs_eq_self h]

/-! ## Claim C4: numeric results -/

/-- C4: every row of the aggregated dataset carries a result obtained by
numeric coercion of a deduplicated flattened row, and the dataset has exactly
as many rows as there are deduplicated rows whose result coerces — rows that
fail coercion are dropped, not kept with a null. -/
theorem c4_numeric_results (flat : List FlatRow) :
    (∀ d ∈ aggregate flat, ∃ r ∈ dedupKeepFirst flat, toNumeric r.result = some d.result)
    ∧ (aggregate flat).length
        = ((dedupKeepFirst flat).filter (fun r => (toNumeric r.result).isSome)).length := by
  constructor
  · intro d hd
    unfold aggregate at hd
    obtain ⟨p, hp, rfl⟩ := List.mem_map.mp hd
    obtain ⟨h1, h2⟩ := mem_coerceRows hp
    exact ⟨p.1, h1, h2⟩
  · unfold aggregate
    rw [List.length_map]
    exact coerceRows_length _

/-- Concrete flattened input for the C4 witness: one coercible and one
non-coercible result. -/
def c4flat : List FlatRow :=
  [{ test_name := "Total Cholesterol", result := "180", flag := "",
     biological_ref_interval := "N/A", unit := "mg/dl", patient_name := "Unknown",
     age := none, sex := "Unknown", source_file := "a.pdf" },
   { test_name := "Glucose", result := "abc", flag := "",
     biological_ref_interval := "N/A", unit := "N/A", patient_name := "Unknown",
     age := none, sex := "Unknown", source_file := "a.pdf" }]

/-- The single dataset row aggregation produces from `c4flat`. -/
def c4row : DataRow :=
  { test_name := "Total Cholesterol", result := ((180 : ℤ), (0 : ℤ)), flag := "",
    biological_ref_interval := "N/A", unit := "mg/dl", patient_name := "Unknown",
    age := none, sex := "Unknown", source_file := "a.pdf", patient_id := 1 }

/-- C4 witness: for the concrete input, the surviving row's result is the
coercion of a deduplicated row, and the non-coercible row is dropped (the
dataset row count equals the count of coercible deduplicated rows). -/
theorem c4_numeric_results_witness :
    (∃ r ∈ dedupKeepFirst c4flat, toNumeric r.result = some c4row.result)
    ∧ (aggregate c4flat).length
        = ((dedupKeepFirst c4flat).filter (fun r => (toNumeric r.result).isSome)).length :=
  ⟨(c4_numeric_results c4flat).1 c4row (by decide), (c4_numeric_results c4flat).2⟩

/-! ## Claim C9: patient-info defaulting -/

/-- C9 counterexample: for a document whose text contains no patient-info
block, the dataset rows carry the placeholder `'Unknown'` for name and sex
(age stays unset), even though the patient-info parser itself found nothing —
the fields do not remain unset in the output. -/
theorem c9_counterexample :
    (process_directory [("a.pdf", "BIOCHEMISTRY\nCHOLESTEROL 180")]).map
        (fun d => (d.patient_name, d.sex, d.age))
      = [("Unknown", "Unknown", none)]
    ∧ parse_patient_info "BIOCHEMISTRY\nCHOLESTEROL 180"
        = { name := none, age := none, sex := none } := by
  constructor
  · decide
  · decide

/-- C9 amended: within `_parse_patient_info` absent fields remain unset, but
`process_directory` fills each dataset row's patient columns by defaulting an
absent name and sex to the placeholder `'Unknown'` (absent age stays null):
every dataset row's patient columns are exactly these defaulted values of the
parsed info of the row's own source document (the batch entry whose filename
is the row's `source_file`). -/
theorem c9_amended_defaults (files : List (String × String)) (d : DataRow)
    (h : d ∈ process_directory files) :
    ∃ raw, (d.source_file, raw) ∈ files
      ∧ d.patient_name = ((parse_patient_info raw).name).getD "Unknown"
      ∧ d.age = (parse_patient_info raw).age
      ∧ d.sex = ((parse_patient_info raw).sex).getD "Unknown" := by
  unfold process_directory at h
  obtain ⟨r, hr, _, hpn, hage, hsex, hsrc, _⟩ := mem_aggregate h
  obtain ⟨p, hp, hrr⟩ := mem_flattenFiles hr
  obtain ⟨hfn, hpn2, hage2, hsex2⟩ := fileRows_fields hrr
  refine ⟨p.2, ?_, by rw [hpn, hpn2], by rw [hage, hage2], by rw [hsex, hsex2]⟩
  have hds : d.source_file = p.1 := by rw [hsrc, hfn]
  rw [hds]
  exact mem_sortFiles hp

/-- C9 amended witness: the concrete dataset row produced from a document
with a name and age but no sex label carries the parsed name, the parsed age,
and the defaulted sex of its own source file `a.pdf`. -/
theorem c9_amended_defaults_witness :
    ∃ raw, (("a.pdf" : String), raw)
        ∈ [("a.pdf", "Name: Mr. Jo\nAge: 4\nBIOCHEMISTRY\nCHOLESTEROL 180")]
      ∧ ("Jo" : String) = ((parse_patient_info raw).name).getD "Unknown"
      ∧ (some "4" : Option String) = (parse_patient_info raw).age
      ∧ ("Unknown" : String) = ((parse_patient_info raw).sex).getD "Unknown" :=
  c9_amended_defaults [("a.pdf", "Name: Mr. Jo\nAge: 4\nBIOCHEMISTRY\nCHOLESTEROL 180")]
    { test_name := "Total Cholesterol", result := ((180 : ℤ), (0 : ℤ)), flag := "HLL",
      biological_ref_interval := "N/A", unit := "N/A", patient_name := "Jo",
      age := some "4", sex := "Unknown", source_file := "a.pdf", patient_id := 1 }
    (by decide)

/-! ## Claim C5: dense 1-based patient ids -/

/-- The distinct source files of a dataset, in first-seen row order. -/
def distinctSources (rows : List DataRow) : List String :=
  dedupKeepFirst (rows.map (fun d => d.source_file))

/-- C5: in every dataset produced by `process_directory`, `patient_id` lies in
`1..N` for `N` the number of distinct source files of the dataset, every id in
`1..N` is taken (dense), and each row's id is the 1-based rank of its source
file in first-seen order — which is deterministic for a given file list. -/
theorem c5_patient_ids (files : List (String × String)) :
    (∀ d ∈ process_directory files,
        1 ≤ d.patient_id
        ∧ d.patient_id ≤ (distinctSources (process_directory files)).length
        ∧ d.patient_id = rankOf d.source_file (distinctSources (process_directory files)) + 1)
    ∧ (∀ k : Nat, 1 ≤ k → k ≤ (distinctSources (process_directory files)).length →
        ∃ d ∈ process_directory files, d.patient_id = k) := by
  have hco := aggregate_srcs_pairwise
    (flattenFiles_sources_pairwise (sortFiles_pairwise files))
  have hds : distinctSources (process_directory files)
      = groupKeys (coerceRows (dedupKeepFirst (flattenFiles (sortFiles files)))) := by
    unfold distinctSources process_directory
    rw [aggregate_map_src, ← groupKeys_of_sorted hco]
  constructor
  · intro d hd
    unfold process_directory aggregate at hd
    obtain ⟨p, hp, rfl⟩ := List.mem_map.mp hd
    have hsrc_mem : p.1.source_file
        ∈ (coerceRows (dedupKeepFirst (flattenFiles (sortFiles files)))).map
            (fun p => p.1.source_file) :=
      List.mem_map.mpr ⟨p, hp, rfl⟩
    have hkeymem : p.1.source_file
        ∈ groupKeys (coerceRows (dedupKeepFirst (flattenFiles (sortFiles files)))) := by
      rw [groupKeys_of_sorted hco]
      exact mem_dedup.mpr hsrc_mem
    have hlt := rankOf_lt_length hkeymem
    refine ⟨Nat.succ_le_succ (Nat.zero_le _), ?_, ?_⟩
    · show rankOf p.1.source_file
        (groupKeys (coerceRows (dedupKeepFirst (flattenFiles (sortFiles files))))) + 1 ≤ _
      rw [hds]
      exact hlt
    · show rankOf p.1.source_file
          (groupKeys (coerceRows (dedupKeepFirst (flattenFiles (sortFiles files))))) + 1
        = rankOf (aggRow _ p).source_file (distinctSources (process_directory files)) + 1
      rw [hds]
      rfl
  · intro k hk1 hk2
    rw [hds] at hk2
    have hklen : k - 1
        < (groupKeys (coerceRows (dedupKeepFirst (flattenFiles (sortFiles files))))).length := by
      omega
    have hnd : (groupKeys (coerceRows (dedupKeepFirst (flattenFiles (sortFiles files))))).Nodup := by
      unfold groupKeys
      exact dedupAux_nodup _ _
    have hsrc : (groupKeys (coerceRows (dedupKeepFirst (flattenFiles (sortFiles files))))).getD
          (k - 1) ""
        ∈ (coerceRows (dedupKeepFirst (flattenFiles (sortFiles files)))).map
            (fun p => p.1.source_file) := by
      refine mem_dedup.mp ?_
      rw [← groupKeys_of_sorted hco]
      exact getD_mem hklen
    obtain ⟨p, hp, hpsrc⟩ := List.mem_map.mp hsrc
    refine ⟨aggRow (groupKeys (coerceRows (dedupKeepFirst (flattenFiles (sortFiles files))))) p,
      ?_, ?_⟩
    · unfold process_directory aggregate
      exact List.mem_map.mpr ⟨p, hp, rfl⟩
    · show rankOf p.1.source_file
          (groupKeys (coerceRows (dedupKeepFirst (flattenFiles (sortFiles files))))) + 1 = k
      rw [hpsrc, rankOf_getD hnd hklen]
      omega

/-- C5 witness: for two concrete documents the ids are exactly 1 and 2, rank
by first-seen (sorted) source order, and id 2 is attained. -/
theorem c5_patient_ids_witness :
    (1 ≤ (1 : Nat)
      ∧ 1 ≤ (distinctSources (process_directory
          [("b.pdf", "BIOCHEMISTRY\nHDL 45"), ("a.pdf", "BIOCHEMISTRY\nCHOLESTEROL 180")])).length
      ∧ (1 : Nat) = rankOf "a.pdf" (distinctSources (process_directory
          [("b.pdf", "BIOCHEMISTRY\nHDL 45"), ("a.pdf", "BIOCHEMISTRY\nCHOLESTEROL 180")])) + 1)
    ∧ ∃ d ∈ process_directory
        [("b.pdf", "BIOCHEMISTRY\nHDL 45"), ("a.pdf", "BIOCHEMISTRY\nCHOLESTEROL 180")],
        d.patient_id = 2 := by
  refine ⟨?_, ?_⟩
  · exact (c5_patient_ids
      [("b.pdf", "BIOCHEMISTRY\nHDL 45"), ("a.pdf", "BIOCHEMISTRY\nCHOLESTEROL 180")]).1
      { test_name := "Total Cholesterol", result := ((180 : ℤ), (0 : ℤ)), flag := "HLL",
        biological_ref_interval := "N/A", unit := "N/A", patient_name := "Unknown",
        age := none, sex := "Unknown", source_file := "a.pdf", patient_id := 1 }
      (by decide)
  · exact (c5_patient_ids
      [("b.pdf", "BIOCHEMISTRY\nHDL 45"), ("a.pdf", "BIOCHEMISTRY\nCHOLESTEROL 180")]).2
      2 (by decide) (by decide)

end AarogyaAI
